import Mathlib

/-!
Verification of the viewer data-preparation pipelines.

This file gives a shallow embedding of the two data-preparation scripts
of the repository:

  evals/scripts/prepare_viewer_data.py          (the "viewer" / indexed pipeline)
  evals/scripts/prepare_susceptibility_data.py  (the "susceptibility" pipeline)

Modelling conventions:
* Python dicts are modelled as association lists (`DMap`) with Python dict
  semantics: an assignment to an existing key updates the value in place
  (keeping the key's insertion position), an assignment to a fresh key
  appends at the end.  Lookup returns the first (unique) binding.
* Python sets are modelled as duplicate-free lists built with `sinsert`;
  the scripts only ever test membership of sets or sort them, so the
  iteration order of the model is irrelevant to every theorem below.
* JSON numbers (the steering magnitudes) are modelled as rationals `ℚ`;
  every concrete input used below is exactly representable as a binary
  float, so the Python behaviour on those inputs is identical.
* Prompt ids are modelled as integers.  prepare_viewer_data.py coerces
  ids with `str(...)` upon loading and back with `int(...)` when sorting
  (line 211); since `str` is injective on integers and `int` inverts it,
  ids are kept as integers throughout the embedding.
* Strings are Lean `String`s; character-level operations (lowercasing,
  word splitting, suffix tests) are implemented structurally over
  `List Char` so that they evaluate on concrete inputs.
-/


/-! ## Python dict model -/

/-- DMap models a Python dict as an association list in insertion order. -/
abbrev DMap (κ β : Type) := List (κ × β)

/-- dget? models `m[k]` / `m.get(k)`: the value of the first (unique) binding. -/
def dget? [DecidableEq κ] {β : Type} : DMap κ β → κ → Option β
  | [], _ => none
  | p :: rest, k => if p.1 = k then some p.2 else dget? rest k

/-- dinsert models `m[k] = v`: update in place if present, else append. -/
def dinsert [DecidableEq κ] {β : Type} : DMap κ β → κ → β → DMap κ β
  | [], k, v => [(k, v)]
  | p :: rest, k, v => if p.1 = k then (k, v) :: rest else p :: dinsert rest k v

/-- dmodify models an update of an existing key (`m[k]["f"] = v` patterns);
it does nothing when the key is absent. -/
def dmodify [DecidableEq κ] {β : Type} : DMap κ β → κ → (β → β) → DMap κ β
  | [], _, _ => []
  | p :: rest, k, f => if p.1 = k then (p.1, f p.2) :: rest else p :: dmodify rest k f

/-- dkeys models `m.keys()` in insertion order. -/
def dkeys {κ β : Type} (m : DMap κ β) : List κ := m.map (fun p => p.1)

/-! ## Python set model -/

/-- sinsert models `s.add(a)` on a Python set represented as a dedup list. -/
def sinsert [DecidableEq α] (s : List α) (a : α) : List α :=
  if a ∈ s then s else s ++ [a]

/-! ## Chunking (prepare_susceptibility_data.py, chunk_data, lines 97-102;
prepare_viewer_data.py implements the identical slicing inline, lines 184-198):
`for i in range(0, len(data), chunk_size): chunks.append(data[i:i + chunk_size])`.
A chunk_size of 0 makes the Python `range` raise ValueError; the model returns
`[]` in that case and every theorem below assumes `0 < chunk_size`. -/

def chunk_data {α : Type} : List α → Nat → List (List α)
  | [], _ => []
  | _ :: _, 0 => []
  | a :: tl, n + 1 =>
    (a :: tl).take (n + 1) :: chunk_data ((a :: tl).drop (n + 1)) (n + 1)
termination_by data _ => data.length
decreasing_by
  simp only [List.length_drop, List.length_cons]
  omega

/-! ## Character-level string helpers -/

/-- startsWithLC tests whether the second list starts with the first (pattern). -/
def startsWithLC : List Char → List Char → Bool
  | [], _ => true
  | _ :: _, [] => false
  | c :: cs, d :: ds => c == d && startsWithLC cs ds

/-- containsSub tests whether the pattern occurs as a contiguous substring. -/
def containsSub (pat : List Char) : List Char → Bool
  | [] => pat.isEmpty
  | c :: rest => startsWithLC pat (c :: rest) || containsSub pat rest

/-- containsLlama models the Python test `'llama' in model_name.lower()`
(prepare_viewer_data.py line 226, prepare_susceptibility_data.py line 142). -/
def containsLlama (s : String) : Bool :=
  containsSub "llama".data (s.data.map Char.toLower)

/-- wordsAux splits a character list into maximal whitespace-free words,
modelling Python `str.split()` (no argument: runs of whitespace separate
words, leading/trailing whitespace ignored). -/
def wordsAux : List Char → List Char → List (List Char)
  | [], acc => if acc.isEmpty then [] else [acc.reverse]
  | c :: cs, acc =>
    if c.isWhitespace then
      if acc.isEmpty then wordsAux cs [] else acc.reverse :: wordsAux cs []
    else wordsAux cs (c :: acc)

/-- pySplitWhite models `s.split()`. -/
def pySplitWhite (s : String) : List (List Char) := wordsAux s.data []

/-- joinSpace models `' '.join(words)`. -/
def joinSpace (ws : List (List Char)) : List Char :=
  (List.intersperse [' '] ws).flatten

/-- truncate_persona models prepare_viewer_data.py lines 93-99: truncate a
persona to its first 10 words, appending an ellipsis when truncated. -/
def truncate_persona (persona : String) : String :=
  let persona_words := pySplitWhite persona
  if persona_words.length > 10 then
    ⟨joinSpace (persona_words.take 10) ++ "...".data⟩
  else persona

/-- endsWithLC models Python `s.endswith(suffix)` on character lists. -/
def endsWithLC (s suffix : List Char) : Bool :=
  decide (suffix.length ≤ s.length) && (s.drop (s.length - suffix.length) == suffix)

/-- stripWhite models Python `s.strip()` on character lists. -/
def stripWhite (s : List Char) : List Char :=
  ((s.dropWhile Char.isWhitespace).reverse.dropWhile Char.isWhitespace).reverse

/-- rstripDotSpace models Python `s.rstrip('. ')` on character lists. -/
def rstripDotSpace (s : List Char) : List Char :=
  (s.reverse.dropWhile (fun c => c == '.' || c == ' ')).reverse

/-! ## Field normalizers (prepare_susceptibility_data.py) -/

/-- normalize_score models prepare_susceptibility_data.py lines 16-25.
Python falsiness of a string is emptiness. -/
def normalize_score (score : String) : String :=
  if score = "" then score
  else if score = "weird_ai" then "weird_role"
  else score

/-- extract_system_prompt models prepare_susceptibility_data.py lines 27-42.
In the first branch Python returns `full_prompt or ""`, which equals
`full_prompt` whether or not it is empty. -/
def extract_system_prompt (full_prompt question role : String) : String :=
  if full_prompt = "" ∨ question = "" then full_prompt
  else if role = "default" ∧ full_prompt = question then
    "Default Assistant response with no specific system prompt"
  else if endsWithLC full_prompt.data question.data then
    ⟨rstripDotSpace (stripWhite (full_prompt.data.take
      (full_prompt.data.length - question.data.length)))⟩
  else full_prompt

/-! ## Magnitude coercions and sorting -/

/-- ratTrunc models Python `int(x)` on a numeric value: truncation toward
zero. -/
def ratTrunc (q : ℚ) : Int := if 0 ≤ q then q.floor else q.ceil

/-- viewer_mag_key models the key coercion `str(int(magnitude_value))` of
prepare_viewer_data.py lines 136 and 145. -/
def viewer_mag_key (q : ℚ) : String := toString (ratTrunc q)

/-- sortAscQ models Python `sorted(xs)` on numeric values (stable ascending;
on the duplicate-free lists used below this is the unique sorted order). -/
def sortAscQ (l : List ℚ) : List ℚ := List.insertionSort (fun a b => a ≤ b) l

/-- sortDescQ models Python `sorted(xs, reverse=True)`. -/
def sortDescQ (l : List ℚ) : List ℚ := List.insertionSort (fun a b => b ≤ a) l

/-- sortAscInt models `sorted(ids, key=int)` on the integer model of ids. -/
def sortAscInt (l : List Int) : List Int := List.insertionSort (fun a b => a ≤ b) l

/-- sortDescInt models `sorted(keys, key=lambda x: float(x), reverse=True)`
on the integer magnitude keys (float conversion preserves integer order). -/
def sortDescInt (l : List Int) : List Int := List.insertionSort (fun a b => b ≤ a) l

/-! ## Viewer pipeline (prepare_viewer_data.py, process_model_data) -/

/-- VEntry is one parsed JSONL record of the jailbreak evaluation files.
Fields read with `entry.get(key, default)` on string fields are modelled as
the string itself (a missing field reads as the default `''`); the magnitude
read with `entry.get('magnitude', 0)` is `Option ℚ`. -/
structure VEntry where
  id : Int
  magnitude : Option ℚ
  response : String
  score : String
  question : String
  persona : String
  harm_category : String
deriving DecidableEq

/-- RespPair is the `{"response": ..., "score": ...}` leaf document. -/
structure RespPair where
  response : String
  score : String
deriving DecidableEq

/-- respOf builds the leaf document from an entry (lines 110-111 etc.). -/
def respOf (e : VEntry) : RespPair := ⟨e.response, e.score⟩

/-- magKeyI is the integer magnitude bucket key `int(entry.get('magnitude', 0))`
(lines 135-136, 144-145); the Python code stores `str` of this integer, which
is an injective further coercion, so buckets are keyed here by the integer. -/
def magKeyI (e : VEntry) : Int := ratTrunc (e.magnitude.getD 0)

/-- Prompt is the per-prompt output document built at lines 102-115 and
extended at lines 125-128 and 152-167.  unsteered_default and steered are
empty at creation and filled by the later passes. -/
structure Prompt where
  id : Int
  question : String
  persona : String
  harm_category : String
  unsteered_jailbreak : RespPair
  unsteered_default : Option RespPair
  steered : DMap Int (Option RespPair × Option RespPair)
deriving DecidableEq

/-- mkPrompt models the dict literal of lines 102-115. -/
def mkPrompt (e : VEntry) : Prompt :=
  { id := e.id
    question := e.question
    persona := truncate_persona e.persona
    harm_category := e.harm_category
    unsteered_jailbreak := respOf e
    unsteered_default := none
    steered := [] }

/-- valid_test models membership in `valid_ids = unsteered_ids & steered_ids`
(lines 72-77), the intersection of the stringified id sets of the
unsteered-jailbreak and steered-jailbreak files. -/
def valid_test (uj sj : List VEntry) (i : Int) : Bool :=
  (uj.any fun e => decide (e.id = i)) && (sj.any fun e => decide (e.id = i))

/-- prompts1 models the first pass over the unsteered jailbreak file
(lines 86-115): skip ids outside valid_ids, then assign the prompt document
(overwriting any earlier record with the same id). -/
def prompts1 (uj sj : List VEntry) : DMap Int Prompt :=
  uj.foldl
    (fun m e => if valid_test uj sj e.id then dinsert m e.id (mkPrompt e) else m)
    []

/-- prompts2 models the unsteered-default pass (lines 122-128): for entries
whose id is already a key, set responses.unsteered.default. -/
def prompts2 (uj ud sj : List VEntry) : DMap Int Prompt :=
  ud.foldl
    (fun m e =>
      if (dget? m e.id).isSome then
        dmodify m e.id (fun p => { p with unsteered_default := some (respOf e) })
      else m)
    (prompts1 uj sj)

/-- Bucket is one value of `steered_by_magnitude`: the per-magnitude
`{"jailbreak": {...}, "default": {...}}` pair of id-keyed maps (line 131). -/
abbrev Bucket := DMap Int RespPair × DMap Int RespPair

/-- bucketGet models `steered_by_magnitude[magnitude]` under defaultdict
semantics: a missing key reads as the empty bucket. -/
def bucketGet (m : DMap Int Bucket) (k : Int) : Bucket :=
  (dget? m k).getD ([], [])

/-- sjStep models one iteration of the steered-jailbreak loop (lines 133-140):
`steered_by_magnitude[magnitude]["jailbreak"][prompt_id] = {...}`. -/
def sjStep (m : DMap Int Bucket) (e : VEntry) : DMap Int Bucket :=
  let b := bucketGet m (magKeyI e)
  dinsert m (magKeyI e) (dinsert b.1 e.id (respOf e), b.2)

/-- sdStep models one iteration of the steered-default loop (lines 142-149):
`steered_by_magnitude[magnitude]["default"][prompt_id] = {...}`. -/
def sdStep (m : DMap Int Bucket) (e : VEntry) : DMap Int Bucket :=
  let b := bucketGet m (magKeyI e)
  dinsert m (magKeyI e) (b.1, dinsert b.2 e.id (respOf e))

/-- sbmOf models the construction of `steered_by_magnitude` from the steered
jailbreak file (lines 133-140) and then the steered default file
(lines 142-149). -/
def sbmOf (sj sd : List VEntry) : DMap Int Bucket :=
  sd.foldl sdStep (sj.foldl sjStep [])

/-- attachSteered models the per-prompt steered-responses loop
(lines 152-167): iterate magnitudes in descending numeric order and record
the jailbreak/default leaves present for this prompt id. -/
def attachSteered (sbm : DMap Int Bucket) (pid : Int) :
    DMap Int (Option RespPair × Option RespPair) :=
  (sortDescInt (dkeys sbm)).foldl
    (fun acc k =>
      let b := bucketGet sbm k
      match dget? b.1 pid, dget? b.2 pid with
      | none, none => acc
      | jb, df => dinsert acc k (jb, df))
    []

/-- prompts3 models lines 152-167 applied to every prompt in order. -/
def prompts3 (uj ud sj sd : List VEntry) : DMap Int Prompt :=
  (prompts2 uj ud sj).map
    (fun p => (p.1, { p.2 with steered := attachSteered (sbmOf sj sd) p.1 }))

/-- prompts4 models the safety-check removal of prompts with no steered data
(lines 169-177). -/
def prompts4 (uj ud sj sd : List VEntry) : DMap Int Prompt :=
  (prompts3 uj ud sj sd).filter (fun p => !p.2.steered.isEmpty)

/-- viewer_slices is the chunk slicing of `prompt_items` (lines 184-198);
the loop `for i in range(0, len(prompt_items), chunk_size)` produces exactly
the chunk_data slices. -/
def viewer_slices (uj ud sj sd : List VEntry) (chunk_size : Nat) :
    List (List (Int × Prompt)) :=
  chunk_data (prompts4 uj ud sj sd) chunk_size

/-- viewer_chunks is the list of chunk files (lines 188-189, 201-204): the
chunk documents hold the prompt records. -/
def viewer_chunks (uj ud sj sd : List VEntry) (chunk_size : Nat) :
    List (List Prompt) :=
  (viewer_slices uj ud sj sd chunk_size).map (fun ch => ch.map (fun p => p.2))

/-- viewer_p2c models the construction of `prompt_to_chunk_map`
(lines 190-196): for the item at position prompt_index of chunk chunk_index,
map its prompt id to that pair. -/
def viewer_p2c (uj ud sj sd : List VEntry) (chunk_size : Nat) :
    DMap Int (Nat × Nat) :=
  (viewer_slices uj ud sj sd chunk_size).enum.foldl
    (fun m ci_ch =>
      ci_ch.2.enum.foldl
        (fun m2 pi_pr => dinsert m2 pi_pr.2.1 (ci_ch.1, pi_pr.1))
        m)
    []

/-- viewer_prompt_ids models `index["prompt_ids"]` (lines 207-211): the item
ids in chunk order, then sorted numerically (`key=int`). -/
def viewer_prompt_ids (uj ud sj sd : List VEntry) : List Int :=
  sortAscInt ((prompts4 uj ud sj sd).map (fun p => p.1))

/-- viewer_magnitudes models lines 217-229: collect the steered magnitude
keys of all surviving prompts into a set, add the unsteered magnitude 0,
convert to numbers, and sort ascending for llama-family model names,
descending otherwise. -/
def viewer_all_mags (uj ud sj sd : List VEntry) : List Int :=
  (prompts4 uj ud sj sd).foldl (fun s p => (dkeys p.2.steered).foldl sinsert s) []

/-- viewer_magnitudes continues lines 217-229: add the unsteered magnitude 0
to the set, convert to numbers, and sort ascending for llama-family model
names, descending otherwise. -/
def viewer_magnitudes (model_name : String) (uj ud sj sd : List VEntry) :
    List ℚ :=
  if containsLlama model_name then
    sortAscQ ((sinsert (viewer_all_mags uj ud sj sd) 0).map (fun z : Int => (z : ℚ)))
  else
    sortDescQ ((sinsert (viewer_all_mags uj ud sj sd) 0).map (fun z : Int => (z : ℚ)))

/-- viewer_harm_categories models the harm-category set collected at
lines 117-119 (sorted serialization at line 214 is not modelled; no claim
concerns it). -/
def viewer_harm_categories (uj sj : List VEntry) : List String :=
  uj.foldl
    (fun s e =>
      if valid_test uj sj e.id && !(e.harm_category == "") then
        sinsert s e.harm_category
      else s)
    []

/-- VIndex is the index document of lines 60-70 as finalized at
lines 206-229. -/
structure VIndex where
  model : String
  evalName : String
  prompt_ids : List Int
  magnitudes : List ℚ
  harm_categories : List String
  total_prompts : Nat
  chunk_size : Nat
  total_chunks : Nat
  prompt_to_chunk_map : DMap Int (Nat × Nat)

/-- VOut bundles the index document and the chunk files written by
process_model_data. -/
structure VOut where
  index : VIndex
  chunks : List (List Prompt)

/-- process_model_data models the pure data transformation of
prepare_viewer_data.py lines 23-240 (file IO, directory creation and
printing aside): from the four loaded record lists to the index document
and chunk files. -/
def process_model_data (model_name : String) (uj ud sj sd : List VEntry)
    (chunk_size : Nat) : VOut :=
  { index :=
      { model := model_name
        evalName := "jailbreak"
        prompt_ids := viewer_prompt_ids uj ud sj sd
        magnitudes := viewer_magnitudes model_name uj ud sj sd
        harm_categories := viewer_harm_categories uj sj
        total_prompts := (viewer_prompt_ids uj ud sj sd).length
        chunk_size := chunk_size
        total_chunks := (viewer_slices uj ud sj sd chunk_size).length
        prompt_to_chunk_map := viewer_p2c uj ud sj sd chunk_size }
    chunks := viewer_chunks uj ud sj sd chunk_size }

/-! ## Susceptibility pipeline (prepare_susceptibility_data.py) -/

/-- SEntry is one parsed JSONL record of the susceptibility files.  Fields
read with a bare `entry.get(key)` (id, question_id) or whose default matters
(sample_id, magnitude) are Options; plain string fields model
`entry.get(key, '')`. -/
structure SEntry where
  id : Option Int
  sample_id : Option Int
  question_id : Option Int
  magnitude : Option ℚ
  response : String
  score : String
  question : String
  prompt : String
  role : String
  prompt_id : Int
deriving DecidableEq

/-- group_by_id_and_question models prepare_susceptibility_data.py
lines 60-73: entries with a present id and question_id are appended to the
list at grouped[(id, sample_id default 0)][question_id]; all others are
dropped. -/
def group_by_id_and_question (data : List SEntry) :
    DMap (Int × Int) (DMap Int (List SEntry)) :=
  data.foldl
    (fun m e =>
      match e.id, e.question_id with
      | some i, some q =>
        let cid : Int × Int := (i, e.sample_id.getD 0)
        let inner := (dget? m cid).getD []
        let entries := (dget? inner q).getD []
        dinsert m cid (dinsert inner q (entries ++ [e]))
      | _, _ => m)
    []

/-- groupLook reads the grouped entry list at a composite id and question id
(empty when absent), matching how lines 156-159 and 180-183 read the
grouping. -/
def groupLook (g : DMap (Int × Int) (DMap Int (List SEntry)))
    (cid : Int × Int) (qid : Int) : List SEntry :=
  (dget? ((dget? g cid).getD []) qid).getD []

/-- SRespData is the per-response leaf of create_response_structure
(lines 84-88). -/
structure SRespData where
  response : String
  score : String
  magnitude : ℚ
deriving DecidableEq

/-- sRespData builds the leaf from an entry (lines 83-88). -/
def sRespData (e : SEntry) : SRespData :=
  ⟨e.response, normalize_score e.score, e.magnitude.getD 0⟩

/-- SResponses is the `{'unsteered': ..., 'steered': {...}}` structure of
lines 77-80.  Python keys the steered dict by `str(magnitude)`; since that
string coercion is injective on numeric values, the steered dict is keyed
here by the magnitude itself. -/
structure SResponses where
  unsteered : Option SRespData
  steered : DMap ℚ SRespData
deriving DecidableEq

/-- create_response_structure models prepare_susceptibility_data.py
lines 75-95. -/
def create_response_structure (entries : List SEntry) : SResponses :=
  entries.foldl
    (fun r e =>
      let magnitude := e.magnitude.getD 0
      if magnitude = 0 then { r with unsteered := some (sRespData e) }
      else { r with steered := dinsert r.steered magnitude (sRespData e) })
    { unsteered := none, steered := [] }

/-- suscMagnitudes models lines 134-145 (the `magnitudes` field of the
susceptibility index, line 239): collect distinct non-zero present
magnitudes of all records, then sort descending for llama-family model
names and ascending otherwise. -/
def susc_all_mags (all_susceptibility all_default : List SEntry) : List ℚ :=
  (all_susceptibility ++ all_default).foldl
    (fun s e =>
      match e.magnitude with
      | some mag => if mag ≠ 0 then sinsert s mag else s
      | none => s)
    []

/-- suscMagnitudes continues lines 141-145: sort the collected set
descending for llama-family model names and ascending otherwise. -/
def suscMagnitudes (model_name : String)
    (all_susceptibility all_default : List SEntry) : List ℚ :=
  if containsLlama model_name then
    sortDescQ (susc_all_mags all_susceptibility all_default)
  else sortAscQ (susc_all_mags all_susceptibility all_default)

/-! ## Loading and error propagation

A raw JSONL line is modelled by its parse outcome: `some record` when
`json.loads` succeeds, `none` when it raises.  File presence and the batch
loops of the two `main` functions are modelled to settle the
error-propagation claim. -/

/-- load_jsonl_viewer models prepare_viewer_data.py lines 14-20: there is no
exception handling, so a malformed line makes the whole call fail and the
records accumulated before it are discarded. -/
def load_jsonl_viewer {α : Type} : List (Option α) → Option (List α)
  | [] => some []
  | some r :: rest => (load_jsonl_viewer rest).map (fun d => r :: d)
  | none :: _ => none

/-- load_jsonl_susc models prepare_susceptibility_data.py lines 44-58: the
whole read loop is wrapped in try/except, so a malformed line stops the
loop, the error is printed with the offending path, and the records parsed
before the failure are returned. -/
def load_jsonl_susc {α : Type} : List (Option α) → List α
  | [] => []
  | some r :: rest => r :: load_jsonl_susc rest
  | none :: _ => []

/-- VRaw is the raw input of one model directory for the viewer pipeline:
whether all four expected files exist (lines 40-43) and the parse outcomes
of their lines. -/
structure VRaw where
  name : String
  files_exist : Bool
  uj : List (Option VEntry)
  ud : List (Option VEntry)
  sj : List (Option VEntry)
  sd : List (Option VEntry)

/-- VResult is the per-model outcome in the viewer pipeline: `skipped` when
a file is missing (process_model_data returns None, line 43), `done`
otherwise. -/
inductive VResult where
  | skipped
  | done (out : VOut)

/-- viewer_process_raw models one call of process_model_data on raw files:
a missing file is handled (a warning is printed and None returned, modelled as `skipped`), but a
parse failure in load_jsonl (lines 47-48) is not caught anywhere in the
script, so it escapes the call (`Option.none`). -/
def viewer_process_raw (chunk_size : Nat) (m : VRaw) : Option VResult :=
  if !m.files_exist then some VResult.skipped
  else
    match load_jsonl_viewer m.uj, load_jsonl_viewer m.ud,
        load_jsonl_viewer m.sj, load_jsonl_viewer m.sd with
    | some a, some b, some c, some d =>
      some (VResult.done (process_model_data m.name a b c d chunk_size))
    | _, _, _, _ => none

/-- viewer_batch models the loop of prepare_viewer_data.py main
(lines 256-263).  There is no try/except around process_model_data, so the
first uncaught exception terminates the whole program: the Bool records
whether the batch crashed, and models after the crash are never processed. -/
def viewer_batch (chunk_size : Nat) : List VRaw → List VResult × Bool
  | [] => ([], false)
  | m :: rest =>
    match viewer_process_raw chunk_size m with
    | none => ([], true)
    | some r =>
      let p := viewer_batch chunk_size rest
      (r :: p.1, p.2)

/-- SRaw is the raw input of one model for the susceptibility pipeline: the
parse outcomes of the lines of its four files (lines 117-120). -/
structure SRaw where
  name : String
  steered_susc : List (Option SEntry)
  unsteered_susc : List (Option SEntry)
  steered_default : List (Option SEntry)
  unsteered_default : List (Option SEntry)

/-- SResult is the per-model outcome in the susceptibility pipeline:
`empty` when no data was found (lines 126-128), otherwise the magnitudes
list the model's index gets. -/
inductive SResult where
  | empty
  | done (magnitudes : List ℚ)

/-- susc_process_raw models one call of process_model on raw files
(lines 104-128 and the magnitude computation); load_jsonl catches its own
errors, so this function is total. -/
def susc_process_raw (m : SRaw) : SResult :=
  let ss := load_jsonl_susc m.steered_susc
  let us := load_jsonl_susc m.unsteered_susc
  let sd := load_jsonl_susc m.steered_default
  let ud := load_jsonl_susc m.unsteered_default
  let all_susceptibility := ss ++ us
  let all_default := sd ++ ud
  if all_susceptibility.isEmpty && all_default.isEmpty then SResult.empty
  else SResult.done (suscMagnitudes m.name all_susceptibility all_default)

/-- susc_batch models the loop of prepare_susceptibility_data.py main
(lines 277-284): every model is processed inside try/except, so every model
yields an outcome and the batch always reaches the end. -/
def susc_batch (ms : List SRaw) : List SResult :=
  ms.map susc_process_raw

/-! ## Helper lemmas about the viewer pipeline -/

/-- dinsertPair folds one key-value pair into a map. -/
def dinsertPair {κ β : Type} [DecidableEq κ] (m : DMap κ β) (p : κ × β) :
    DMap κ β :=
  dinsert m p.1 p.2

/-! ### Characterization of the steered_by_magnitude lookups -/

/-- jbLook reads the jailbreak leaf of bucket k for a prompt id. -/
def jbLook (m : DMap Int Bucket) (k pid : Int) : Option RespPair :=
  dget? (bucketGet m k).1 pid

/-- dfLook reads the default leaf of bucket k for a prompt id. -/
def dfLook (m : DMap Int Bucket) (k pid : Int) : Option RespPair :=
  dget? (bucketGet m k).2 pid

/-- matchesJB is the slot predicate: the entry lands in bucket k under the
given prompt id. -/
def matchesJB (k pid : Int) (e : VEntry) : Bool :=
  decide (magKeyI e = k) && decide (e.id = pid)

/-! ## Concrete inputs (the spec section 8 scenario and counterexample data) -/

/-- vmk builds a viewer record with fixed filler text fields. -/
def vmk (i : Int) (mag : Option ℚ) (resp score : String) : VEntry :=
  ⟨i, mag, resp, score, "q", "persona text", "cat"⟩

/-- cUJ is the unsteered jailbreak file: two records with id 7, magnitude 0. -/
def cUJ : List VEntry := [vmk 7 (some 0) "u1" "s", vmk 7 (some 0) "u2" "s"]

/-- cUD is an empty unsteered default file. -/
def cUD : List VEntry := []

/-- cSJ is the steered jailbreak file: id 7 at magnitudes 300 and -300. -/
def cSJ : List VEntry := [vmk 7 (some 300) "p300" "s", vmk 7 (some (-300)) "m300" "s"]

/-- cSD is an empty steered default file. -/
def cSD : List VEntry := []

/-- smk builds a susceptibility record with the given magnitude. -/
def smk (mag : Option ℚ) : SEntry :=
  ⟨some 1, some 0, some 0, mag, "r", "s", "q", "p", "role", 0⟩

/-- cS4 holds two records with magnitudes 1 and 2 (C4 counterexample data). -/
def cS4 : List SEntry := [smk (some 1), smk (some 2)]

/-- cDup holds two records in the same steered slot (magnitude 5). -/
def cDup : List SEntry :=
  [{ smk (some 5) with response := "first" }, { smk (some 5) with response := "second" }]

/-! ## C9: the viewer key coercion -/

/-- halfQ is the rational one half (the JSON number 0.5, exactly
representable as a float). -/
def halfQ : ℚ := Rat.mk' 1 2 (by decide) (Nat.coprime_one_left 2)

/-- quarterQ is the rational one quarter (the JSON number 0.25). -/
def quarterQ : ℚ := Rat.mk' 1 4 (by decide) (Nat.coprime_one_left 4)

/-- cMissSample has no sample_id but a present id and question_id. -/
def cMissSample : SEntry :=
  { smk (some 5) with sample_id := none, id := some 1, question_id := some 2 }

/-- cNoId has no id field. -/
def cNoId : SEntry := { smk (some 5) with id := none }

/-! ## C6: error propagation -/

/-- vmBad is a model directory whose first file holds a malformed line. -/
def vmBad : VRaw :=
  { name := "m1", files_exist := true, uj := [none], ud := [], sj := [], sd := [] }

/-- vmGood is a model directory whose files all parse. -/
def vmGood : VRaw :=
  { name := "m2", files_exist := true
    uj := [some (vmk 1 (some 0) "r" "s")], ud := []
    sj := [some (vmk 1 (some 300) "r" "s")], sd := [] }

/-! ## Theorems -/

section DMapLemmas

variable {κ β : Type} [DecidableEq κ]

theorem dget?_dinsert (m : DMap κ β) (k k' : κ) (v : β) :
    dget? (dinsert m k v) k' = if k' = k then some v else dget? m k' := by
  induction m with
  | nil =>
    simp only [dinsert, dget?]
    by_cases h : k = k'
    · subst h; simp
    · have h2 : ¬ k' = k := fun hc => h hc.symm
      simp [h, h2]
  | cons p rest ih =>
    simp only [dinsert]
    by_cases hpk : p.1 = k
    · simp only [hpk, if_true, dget?]
      by_cases h : k = k'
      · subst h; simp [hpk]
      · have h2 : ¬ k' = k := fun hc => h hc.symm
        have hp : ¬ p.1 = k' := by rw [hpk]; exact h
        simp [h, h2, hp]
    · simp only [hpk, if_false, dget?]
      by_cases hp : p.1 = k'
      · have h2 : ¬ k' = k := fun hc => hpk (hp.trans hc)
        simp [hp, h2]
      · simp [hp, ih]

theorem dget?_dmodify (m : DMap κ β) (k k' : κ) (f : β → β) :
    dget? (dmodify m k f) k' =
      if k' = k then (dget? m k).map f else dget? m k' := by
  induction m with
  | nil =>
    by_cases h : k' = k <;> simp [dmodify, dget?, h]
  | cons p rest ih =>
    simp only [dmodify]
    by_cases hpk : p.1 = k
    · simp only [hpk, if_true, dget?]
      by_cases h : k = k'
      · subst h; simp [hpk]
      · have h2 : ¬ k' = k := fun hc => h hc.symm
        have hp : ¬ p.1 = k' := by rw [hpk]; exact h
        simp [h, h2, hp, hpk]
    · simp only [hpk, if_false, dget?]
      by_cases hp : p.1 = k'
      · have h2 : ¬ k' = k := fun hc => hpk (hp.trans hc)
        simp [hp, h2]
      · simp [hp, ih]

theorem dkeys_dmodify (m : DMap κ β) (k : κ) (f : β → β) :
    dkeys (dmodify m k f) = dkeys m := by
  induction m with
  | nil => rfl
  | cons p rest ih =>
    by_cases hpk : p.1 = k
    · simp only [dmodify, hpk, if_true]
      simp [dkeys, hpk]
    · simp only [dmodify, hpk, if_false, dkeys, List.map_cons]
      exact congrArg (fun l => p.1 :: l) ih

theorem mem_dkeys_dinsert (m : DMap κ β) (k k' : κ) (v : β) :
    k' ∈ dkeys (dinsert m k v) ↔ k' = k ∨ k' ∈ dkeys m := by
  induction m with
  | nil => simp [dinsert, dkeys]
  | cons p rest ih =>
    by_cases hpk : p.1 = k
    · subst hpk
      rw [show dinsert (p :: rest) p.1 v = (p.1, v) :: rest from by simp [dinsert]]
      simp only [dkeys, List.map_cons, List.mem_cons]
      tauto
    · simp only [dinsert, hpk, if_false, dkeys, List.map_cons, List.mem_cons]
      rw [show List.map (fun p : κ × β => p.1) (dinsert rest k v) = dkeys (dinsert rest k v)
        from rfl, ih]
      tauto

theorem dinsert_ne_nil (m : DMap κ β) (k : κ) (v : β) :
    dinsert m k v ≠ [] := by
  cases m with
  | nil => simp [dinsert]
  | cons p rest => by_cases h : p.1 = k <;> simp [dinsert, h]

theorem dget?_isSome_dinsert_of_isSome (m : DMap κ β) (k k' : κ) (v : β)
    (h : (dget? m k').isSome) : (dget? (dinsert m k v) k').isSome := by
  rw [dget?_dinsert]
  by_cases hk : k' = k <;> simp [hk, h]

/-- dinsert preserves a pointwise invariant when the new binding satisfies it. -/
theorem forall_mem_dinsert {P : κ × β → Prop} (m : DMap κ β) (k : κ) (v : β)
    (hm : ∀ q ∈ m, P q) (hv : P (k, v)) : ∀ q ∈ dinsert m k v, P q := by
  induction m with
  | nil => simpa [dinsert] using hv
  | cons p rest ih =>
    by_cases hpk : p.1 = k
    · intro q hq
      simp only [dinsert, hpk, if_true, List.mem_cons] at hq
      rcases hq with h | h
      · exact h ▸ hv
      · exact hm q (List.mem_cons_of_mem _ h)
    · intro q hq
      simp only [dinsert, hpk, if_false, List.mem_cons] at hq
      rcases hq with h | h
      · exact h ▸ hm p (List.mem_cons_self _ _)
      · exact ih (fun q hq => hm q (List.mem_cons_of_mem _ hq)) q h

end DMapLemmas

theorem mem_sinsert [DecidableEq α] (s : List α) (a b : α) :
    b ∈ sinsert s a ↔ b ∈ s ∨ b = a := by
  by_cases h : a ∈ s
  · simp only [sinsert, h, if_true]
    constructor
    · exact Or.inl
    · rintro (hb | rfl)
      · exact hb
      · exact h
  · simp [sinsert, h]

theorem chunk_data_nil {α : Type} (n : Nat) : chunk_data ([] : List α) n = [] := by
  cases n <;> simp [chunk_data]

theorem chunk_data_cons {α : Type} (data : List α) (n : Nat)
    (hd : data ≠ []) (hn : n ≠ 0) :
    chunk_data data n = data.take n :: chunk_data (data.drop n) n := by
  cases data with
  | nil => exact absurd rfl hd
  | cons a tl =>
    cases n with
    | zero => exact absurd rfl hn
    | succ m => rw [chunk_data.eq_def]

theorem chunk_data_eq_nil_iff {α : Type} (data : List α) (n : Nat) (hn : 0 < n) :
    chunk_data data n = [] ↔ data = [] := by
  constructor
  · intro h
    by_contra hd
    rw [chunk_data_cons data n hd (Nat.pos_iff_ne_zero.mp hn)] at h
    exact List.cons_ne_nil _ _ h
  · intro h; rw [h, chunk_data_nil]

theorem flatten_chunk_data {α : Type} (data : List α) (n : Nat) (hn : 0 < n) :
    (chunk_data data n).flatten = data := by
  have H : ∀ len, ∀ d : List α, d.length ≤ len → (chunk_data d n).flatten = d := by
    intro len
    induction len with
    | zero =>
      intro d h
      have hd : d = [] := List.length_eq_zero.mp (Nat.le_zero.mp h)
      simp [hd, chunk_data_nil]
    | succ m ih =>
      intro d h
      by_cases hd : d = []
      · simp [hd, chunk_data_nil]
      · rw [chunk_data_cons d n hd (Nat.pos_iff_ne_zero.mp hn), List.flatten_cons,
          ih (d.drop n) ?_, List.take_append_drop]
        have hdl : 0 < d.length := List.length_pos.mpr hd
        rw [List.length_drop]
        omega
  exact H data.length data le_rfl

theorem length_mem_dropLast_chunk_data {α : Type} (data : List α) (n : Nat)
    (hn : 0 < n) : ∀ c ∈ (chunk_data data n).dropLast, c.length = n := by
  have H : ∀ len, ∀ d : List α, d.length ≤ len →
      ∀ c ∈ (chunk_data d n).dropLast, c.length = n := by
    intro len
    induction len with
    | zero =>
      intro d h
      have hd : d = [] := List.length_eq_zero.mp (Nat.le_zero.mp h)
      simp [hd, chunk_data_nil]
    | succ m ih =>
      intro d h c hc
      by_cases hd : d = []
      · simp [hd, chunk_data_nil] at hc
      · rw [chunk_data_cons d n hd (Nat.pos_iff_ne_zero.mp hn)] at hc
        by_cases hrest : chunk_data (d.drop n) n = []
        · simp [hrest] at hc
        · rw [List.dropLast_cons_of_ne_nil hrest, List.mem_cons] at hc
          rcases hc with hc | hc
          · have hdrop : d.drop n ≠ [] := by
              intro hcon
              exact hrest (by rw [hcon, chunk_data_nil])
            have hlen : n < d.length := by
              by_contra hle
              push_neg at hle
              exact hdrop (List.drop_eq_nil_of_le hle)
            rw [hc, List.length_take]
            omega
          · have hdl : 0 < d.length := List.length_pos.mpr hd
            exact ih (d.drop n) (by rw [List.length_drop]; omega) c hc
  exact H data.length data le_rfl

theorem getLast?_chunk_data {α : Type} (data : List α) (n : Nat)
    (hn : 0 < n) (hd : data ≠ []) :
    ∃ c, (chunk_data data n).getLast? = some c ∧ 0 < c.length ∧ c.length ≤ n := by
  have H : ∀ len, ∀ d : List α, d.length ≤ len → d ≠ [] →
      ∃ c, (chunk_data d n).getLast? = some c ∧ 0 < c.length ∧ c.length ≤ n := by
    intro len
    induction len with
    | zero =>
      intro d h hd
      exact absurd (List.length_eq_zero.mp (Nat.le_zero.mp h)) hd
    | succ m ih =>
      intro d h hd
      rw [chunk_data_cons d n hd (Nat.pos_iff_ne_zero.mp hn)]
      by_cases hrest : chunk_data (d.drop n) n = []
      · refine ⟨d.take n, ?_, ?_, ?_⟩
        · rw [hrest]; rfl
        · rw [List.length_take]
          have : 0 < d.length := List.length_pos.mpr hd
          omega
        · rw [List.length_take]; omega
      · have hdrop : d.drop n ≠ [] :=
          fun hcon => hrest (by rw [hcon, chunk_data_nil])
        have hdl : 0 < d.length := List.length_pos.mpr hd
        obtain ⟨c, hc1, hc2, hc3⟩ :=
          ih (d.drop n) (by rw [List.length_drop]; omega) hdrop
        obtain ⟨c0, cs, hrw⟩ := List.exists_cons_of_ne_nil hrest
        refine ⟨c, ?_, hc2, hc3⟩
        rw [hrw, List.getLast?_cons_cons, ← hrw]
        exact hc1
  exact H data.length data le_rfl hd

theorem dget?_foldl_dinsertPair_eq_some {κ β : Type} [DecidableEq κ]
    (ps : List (κ × β)) :
    ∀ (m : DMap κ β) (k : κ) (v : β),
      dget? (ps.foldl dinsertPair m) k = some v →
        (k, v) ∈ ps ∨ dget? m k = some v := by
  induction ps with
  | nil => intro m k v h; exact Or.inr h
  | cons p rest ih =>
    intro m k v h
    rcases ih _ _ _ h with hmem | hbase
    · exact Or.inl (List.mem_cons_of_mem _ hmem)
    · simp only [dinsertPair] at hbase
      rw [dget?_dinsert] at hbase
      by_cases hk : k = p.1
      · simp only [hk, if_true] at hbase
        obtain rfl : p.2 = v := Option.some.injEq _ _ ▸ hbase
        exact Or.inl (by rw [hk]; exact List.mem_cons_self _ _)
      · simp only [hk, if_false] at hbase
        exact Or.inr hbase

theorem dget?_foldl_dinsertPair_isSome_of_isSome {κ β : Type} [DecidableEq κ]
    (ps : List (κ × β)) :
    ∀ (m : DMap κ β) (k : κ), (dget? m k).isSome →
      (dget? (ps.foldl dinsertPair m) k).isSome := by
  induction ps with
  | nil => intro m k h; exact h
  | cons p rest ih =>
    intro m k h
    exact ih _ _ (dget?_isSome_dinsert_of_isSome _ _ _ _ h)

theorem dget?_foldl_dinsertPair_isSome_of_mem {κ β : Type} [DecidableEq κ]
    (ps : List (κ × β)) :
    ∀ (m : DMap κ β) (k : κ) (v : β), (k, v) ∈ ps →
      (dget? (ps.foldl dinsertPair m) k).isSome := by
  induction ps with
  | nil => intro m k v h; cases h
  | cons p rest ih =>
    intro m k v h
    rcases List.mem_cons.mp h with h | h
    · refine dget?_foldl_dinsertPair_isSome_of_isSome rest (dinsertPair m p) k ?_
      simp only [dinsertPair]
      rw [dget?_dinsert]
      have : k = p.1 := congrArg Prod.fst h
      simp [this]
    · exact ih _ _ _ h

/-- The nested per-chunk fold that builds prompt_to_chunk_map equals a flat
fold over the enumerated (id, (chunk_index, prompt_index)) triples. -/
theorem foldl_foldl_eq_foldl_flatMap {γ κ β : Type} [DecidableEq κ]
    (g : γ → List (κ × β)) (L : List γ) :
    ∀ (m : DMap κ β),
      L.foldl (fun m x => (g x).foldl dinsertPair m) m =
        (L.flatMap g).foldl dinsertPair m := by
  induction L with
  | nil => intro m; rfl
  | cons a tl ih =>
    intro m
    rw [List.flatMap_cons, List.foldl_append, List.foldl_cons, ih]

theorem viewer_p2c_eq_flat (uj ud sj sd : List VEntry) (chunk_size : Nat) :
    viewer_p2c uj ud sj sd chunk_size =
      ((viewer_slices uj ud sj sd chunk_size).enum.flatMap
        (fun ci_ch =>
          ci_ch.2.enum.map (fun pi_pr => (pi_pr.2.1, (ci_ch.1, pi_pr.1))))).foldl
        dinsertPair [] := by
  rw [viewer_p2c, ← foldl_foldl_eq_foldl_flatMap]
  congr 1
  funext m ci_ch
  rw [List.foldl_map]
  rfl

/-- A generic fold invariant for dict-building loops. -/
theorem foldl_invariant {κ β γ : Type} {P : κ × β → Prop}
    (step : DMap κ β → γ → DMap κ β)
    (hstep : ∀ m e, (∀ q ∈ m, P q) → ∀ q ∈ step m e, P q) :
    ∀ (l : List γ) (m : DMap κ β), (∀ q ∈ m, P q) → ∀ q ∈ l.foldl step m, P q := by
  intro l
  induction l with
  | nil => intro m hm; exact hm
  | cons a tl ih => intro m hm; exact ih _ (hstep m a hm)

theorem forall_mem_dmodify {κ β : Type} [DecidableEq κ] {P : κ × β → Prop}
    (m : DMap κ β) (k : κ) (f : β → β)
    (hm : ∀ q ∈ m, P q) (hf : ∀ k' v, P (k', v) → P (k', f v)) :
    ∀ q ∈ dmodify m k f, P q := by
  induction m with
  | nil => intro q hq; cases hq
  | cons p rest ih =>
    by_cases hpk : p.1 = k
    · subst hpk
      intro q hq
      rw [show dmodify (p :: rest) p.1 f = (p.1, f p.2) :: rest from by simp [dmodify]] at hq
      rcases List.mem_cons.mp hq with h | h
      · exact h ▸ hf p.1 p.2 (hm p (List.mem_cons_self _ _))
      · exact hm q (List.mem_cons_of_mem _ h)
    · intro q hq
      simp only [dmodify, hpk, if_false, List.mem_cons] at hq
      rcases hq with h | h
      · exact h ▸ hm p (List.mem_cons_self _ _)
      · exact ih (fun q hq => hm q (List.mem_cons_of_mem _ hq)) q h

/-- Every binding of prompts1 maps an id to a record whose id field is that
id. -/
theorem prompts1_id_inv (uj sj : List VEntry) :
    ∀ q ∈ prompts1 uj sj, q.2.id = q.1 := by
  refine foldl_invariant _ ?_ uj [] (by intro q hq; cases hq)
  intro m e hm q hq
  by_cases hc : valid_test uj sj e.id
  · simp only [hc, if_true] at hq
    exact forall_mem_dinsert m e.id (mkPrompt e) hm rfl q hq
  · simp only [hc] at hq
    simp only [Bool.false_eq_true, if_false] at hq
    exact hm q hq

theorem prompts2_id_inv (uj ud sj : List VEntry) :
    ∀ q ∈ prompts2 uj ud sj, q.2.id = q.1 := by
  refine foldl_invariant _ ?_ ud (prompts1 uj sj) (prompts1_id_inv uj sj)
  intro m e hm q hq
  by_cases hc : (dget? m e.id).isSome
  · simp only [hc, if_true] at hq
    exact forall_mem_dmodify m e.id
      (fun p => { p with unsteered_default := some (respOf e) }) hm
      (fun k' v h => h) q hq
  · simp only [hc] at hq
    simp only [Bool.false_eq_true, if_false] at hq
    exact hm q hq

theorem prompts3_id_inv (uj ud sj sd : List VEntry) :
    ∀ q ∈ prompts3 uj ud sj sd, q.2.id = q.1 := by
  intro q hq
  simp only [prompts3, List.mem_map] at hq
  obtain ⟨p, hp, rfl⟩ := hq
  exact prompts2_id_inv uj ud sj p hp

theorem prompts4_id_inv (uj ud sj sd : List VEntry) :
    ∀ q ∈ prompts4 uj ud sj sd, q.2.id = q.1 := by
  intro q hq
  exact prompts3_id_inv uj ud sj sd q (List.mem_of_mem_filter hq)

/-- Every binding of prompts3 carries the attachSteered result for its key. -/
theorem prompts3_steered (uj ud sj sd : List VEntry) :
    ∀ q ∈ prompts3 uj ud sj sd, q.2.steered = attachSteered (sbmOf sj sd) q.1 := by
  intro q hq
  simp only [prompts3, List.mem_map] at hq
  obtain ⟨p, hp, rfl⟩ := hq
  rfl

/-- Key membership for prompts1: exactly the valid ids occurring in the
unsteered jailbreak file, hence exactly the ids passing valid_test. -/
theorem mem_dkeys_prompts1 (uj sj : List VEntry) (pid : Int) :
    pid ∈ dkeys (prompts1 uj sj) ↔ valid_test uj sj pid = true := by
  have H : ∀ (l : List VEntry) (m : DMap Int Prompt),
      pid ∈ dkeys (l.foldl
        (fun m e => if valid_test uj sj e.id then dinsert m e.id (mkPrompt e) else m) m) ↔
      pid ∈ dkeys m ∨ ∃ e ∈ l, valid_test uj sj e.id = true ∧ e.id = pid := by
    intro l
    induction l with
    | nil => intro m; simp
    | cons a tl ih =>
      intro m
      rw [List.foldl_cons, ih]
      by_cases hc : valid_test uj sj a.id
      · simp only [hc, if_true, mem_dkeys_dinsert, List.mem_cons]
        constructor
        · rintro (⟨h | h⟩ | h)
          · exact Or.inr ⟨a, Or.inl rfl, hc, h.symm⟩
          · exact Or.inl h
          · obtain ⟨e, he, h1, h2⟩ := h
            exact Or.inr ⟨e, Or.inr he, h1, h2⟩
        · rintro (h | ⟨e, he | he, h1, h2⟩)
          · exact Or.inl (Or.inr h)
          · exact Or.inl (Or.inl (he ▸ h2).symm)
          · exact Or.inr ⟨e, he, h1, h2⟩
      · simp only [hc]
        simp only [Bool.false_eq_true, if_false, List.mem_cons]
        constructor
        · rintro (h | h)
          · exact Or.inl h
          · obtain ⟨e, he, h1, h2⟩ := h
            exact Or.inr ⟨e, Or.inr he, h1, h2⟩
        · rintro (h | ⟨e, he | he, h1, h2⟩)
          · exact Or.inl h
          · exact absurd (he ▸ h1) hc
          · exact Or.inr ⟨e, he, h1, h2⟩
  rw [prompts1, H uj []]
  constructor
  · rintro (h | ⟨e, he, h1, h2⟩)
    · cases h
    · exact h2 ▸ h1
  · intro h
    have hex : ∃ e ∈ uj, e.id = pid := by
      have h1 := (Bool.and_eq_true _ _).mp h |>.1
      obtain ⟨e, he, hp⟩ := List.any_eq_true.mp h1
      exact ⟨e, he, of_decide_eq_true hp⟩
    obtain ⟨e, he, hid⟩ := hex
    exact Or.inr ⟨e, he, by rw [hid]; exact h, hid⟩

/-- The unsteered-default pass changes no keys. -/
theorem dkeys_prompts2 (uj ud sj : List VEntry) :
    dkeys (prompts2 uj ud sj) = dkeys (prompts1 uj sj) := by
  rw [prompts2]
  generalize prompts1 uj sj = m
  induction ud generalizing m with
  | nil => rfl
  | cons a tl ih =>
    rw [List.foldl_cons]
    by_cases hc : (dget? m a.id).isSome
    · simp only [hc, if_true]
      rw [ih]
      exact dkeys_dmodify m a.id _
    · simp only [hc]
      simp only [Bool.false_eq_true, if_false]
      exact ih m

/-- The steered-attachment pass changes no keys. -/
theorem dkeys_prompts3 (uj ud sj sd : List VEntry) :
    dkeys (prompts3 uj ud sj sd) = dkeys (prompts2 uj ud sj) := by
  rw [prompts3, dkeys, dkeys, List.map_map]
  rfl

theorem jbLook_sjStep (m : DMap Int Bucket) (e : VEntry) (k pid : Int) :
    jbLook (sjStep m e) k pid =
      if matchesJB k pid e then some (respOf e) else jbLook m k pid := by
  simp only [jbLook, sjStep, bucketGet, matchesJB]
  rw [dget?_dinsert]
  by_cases hk : k = magKeyI e
  · subst hk
    simp only [if_true, Option.getD_some]
    rw [dget?_dinsert]
    by_cases hp : pid = e.id
    · simp [hp]
    · have hp2 : ¬ e.id = pid := fun hc => hp hc.symm
      simp [hp, hp2]
  · have hk2 : ¬ magKeyI e = k := fun hc => hk hc.symm
    simp [hk, hk2]

theorem jbLook_sdStep (m : DMap Int Bucket) (e : VEntry) (k pid : Int) :
    jbLook (sdStep m e) k pid = jbLook m k pid := by
  simp only [jbLook, sdStep, bucketGet]
  rw [dget?_dinsert]
  by_cases hk : k = magKeyI e
  · subst hk; simp
  · simp [hk]

theorem dfLook_sdStep (m : DMap Int Bucket) (e : VEntry) (k pid : Int) :
    dfLook (sdStep m e) k pid =
      if matchesJB k pid e then some (respOf e) else dfLook m k pid := by
  simp only [dfLook, sdStep, bucketGet, matchesJB]
  rw [dget?_dinsert]
  by_cases hk : k = magKeyI e
  · subst hk
    simp only [if_true, Option.getD_some]
    rw [dget?_dinsert]
    by_cases hp : pid = e.id
    · simp [hp]
    · have hp2 : ¬ e.id = pid := fun hc => hp hc.symm
      simp [hp, hp2]
  · have hk2 : ¬ magKeyI e = k := fun hc => hk hc.symm
    simp [hk, hk2]

theorem dfLook_sjStep (m : DMap Int Bucket) (e : VEntry) (k pid : Int) :
    dfLook (sjStep m e) k pid = dfLook m k pid := by
  simp only [dfLook, sjStep, bucketGet]
  rw [dget?_dinsert]
  by_cases hk : k = magKeyI e
  · subst hk; simp
  · simp [hk]

theorem jbLook_foldl_sjStep (l : List VEntry) (k pid : Int) :
    ∀ m, jbLook (l.foldl sjStep m) k pid =
      ((l.reverse.find? (matchesJB k pid)).map respOf).or (jbLook m k pid) := by
  induction l with
  | nil => intro m; simp
  | cons a tl ih =>
    intro m
    rw [List.foldl_cons, ih, List.reverse_cons, List.find?_append]
    cases h : tl.reverse.find? (matchesJB k pid) with
    | some x => simp [Option.or]
    | none =>
      simp only [Option.map_none, Option.none_or, List.find?]
      rw [jbLook_sjStep]
      by_cases hc : matchesJB k pid a
      · simp [hc, Option.or]
      · simp only [hc]
        simp [Bool.false_eq_true, if_false, Option.or]

theorem jbLook_foldl_sdStep (l : List VEntry) (k pid : Int) :
    ∀ m, jbLook (l.foldl sdStep m) k pid = jbLook m k pid := by
  induction l with
  | nil => intro m; rfl
  | cons a tl ih =>
    intro m
    rw [List.foldl_cons, ih, jbLook_sdStep]

theorem dfLook_foldl_sdStep (l : List VEntry) (k pid : Int) :
    ∀ m, dfLook (l.foldl sdStep m) k pid =
      ((l.reverse.find? (matchesJB k pid)).map respOf).or (dfLook m k pid) := by
  induction l with
  | nil => intro m; simp
  | cons a tl ih =>
    intro m
    rw [List.foldl_cons, ih, List.reverse_cons, List.find?_append]
    cases h : tl.reverse.find? (matchesJB k pid) with
    | some x => simp [Option.or]
    | none =>
      simp only [Option.map_none, Option.none_or, List.find?]
      rw [dfLook_sdStep]
      by_cases hc : matchesJB k pid a
      · simp [hc, Option.or]
      · simp only [hc]
        simp [Bool.false_eq_true, if_false, Option.or]

theorem dfLook_foldl_sjStep (l : List VEntry) (k pid : Int) :
    ∀ m, dfLook (l.foldl sjStep m) k pid = dfLook m k pid := by
  induction l with
  | nil => intro m; rfl
  | cons a tl ih =>
    intro m
    rw [List.foldl_cons, ih, dfLook_sjStep]

/-- The jailbreak leaf stored for (magnitude-key k, prompt id pid) is the one
of the last matching record of the steered jailbreak file. -/
theorem jbLook_sbmOf (sj sd : List VEntry) (k pid : Int) :
    jbLook (sbmOf sj sd) k pid =
      (sj.reverse.find? (matchesJB k pid)).map respOf := by
  rw [sbmOf, jbLook_foldl_sdStep, jbLook_foldl_sjStep]
  simp [jbLook, bucketGet, dget?]

/-- The default leaf stored for (magnitude-key k, prompt id pid) is the one
of the last matching record of the steered default file. -/
theorem dfLook_sbmOf (sj sd : List VEntry) (k pid : Int) :
    dfLook (sbmOf sj sd) k pid =
      (sd.reverse.find? (matchesJB k pid)).map respOf := by
  rw [sbmOf, dfLook_foldl_sdStep, dfLook_foldl_sjStep]
  simp [dfLook, bucketGet, dget?]

/-- Keys only grow along the steered folds. -/
theorem mem_dkeys_foldl_sjStep (l : List VEntry) (k : Int) :
    ∀ m, k ∈ dkeys m → k ∈ dkeys (l.foldl sjStep m) := by
  induction l with
  | nil => intro m h; exact h
  | cons a tl ih =>
    intro m h
    refine ih _ ?_
    rw [sjStep, mem_dkeys_dinsert]
    exact Or.inr h

theorem mem_dkeys_foldl_sdStep (l : List VEntry) (k : Int) :
    ∀ m, k ∈ dkeys m → k ∈ dkeys (l.foldl sdStep m) := by
  induction l with
  | nil => intro m h; exact h
  | cons a tl ih =>
    intro m h
    refine ih _ ?_
    rw [sdStep, mem_dkeys_dinsert]
    exact Or.inr h

/-- Every magnitude key of a steered jailbreak record is a key of the
bucket map. -/
theorem magKey_mem_dkeys_sbmOf (sj sd : List VEntry) (e : VEntry)
    (he : e ∈ sj) : magKeyI e ∈ dkeys (sbmOf sj sd) := by
  obtain ⟨l1, l2, rfl⟩ := List.append_of_mem he
  rw [sbmOf, List.foldl_append, List.foldl_cons]
  refine mem_dkeys_foldl_sdStep _ _ _ (mem_dkeys_foldl_sjStep _ _ _ ?_)
  rw [sjStep, mem_dkeys_dinsert]
  exact Or.inl rfl

/-- The attachSteered accumulator never becomes empty again. -/
theorem attach_step_ne_nil (sbm : DMap Int Bucket) (pid : Int)
    (acc : DMap Int (Option RespPair × Option RespPair)) (k : Int)
    (h : acc ≠ []) :
    (match dget? (bucketGet sbm k).1 pid, dget? (bucketGet sbm k).2 pid with
      | none, none => acc
      | jb, df => dinsert acc k (jb, df)) ≠ [] := by
  cases hjb : dget? (bucketGet sbm k).1 pid with
  | none =>
    cases hdf : dget? (bucketGet sbm k).2 pid with
    | none => exact h
    | some r => exact dinsert_ne_nil _ _ _
  | some r => exact dinsert_ne_nil _ _ _

/-- attachSteered yields a non-empty dict as soon as some listed magnitude
key holds a jailbreak or default leaf for the prompt id. -/
theorem attach_fold_ne_nil (sbm : DMap Int Bucket) (pid : Int) :
    ∀ (ks : List Int) (acc : DMap Int (Option RespPair × Option RespPair)),
      ((∃ k ∈ ks, (jbLook sbm k pid).isSome ∨ (dfLook sbm k pid).isSome) ∨ acc ≠ []) →
      ks.foldl
        (fun acc k =>
          let b := bucketGet sbm k
          match dget? b.1 pid, dget? b.2 pid with
          | none, none => acc
          | jb, df => dinsert acc k (jb, df))
        acc ≠ [] := by
  intro ks
  induction ks with
  | nil =>
    intro acc h
    rcases h with ⟨k, hk, _⟩ | h
    · cases hk
    · exact h
  | cons a tl ih =>
    intro acc h
    rw [List.foldl_cons]
    rcases h with ⟨k, hk, hsome⟩ | hacc
    · rcases List.mem_cons.mp hk with rfl | hk2
      · refine ih _ (Or.inr ?_)
        rcases hsome with hs | hs
        · rw [jbLook] at hs
          cases hjb : dget? (bucketGet sbm k).1 pid with
          | none => rw [hjb] at hs; cases hs
          | some r =>
            simp only [hjb]
            cases dget? (bucketGet sbm k).2 pid <;> exact dinsert_ne_nil _ _ _
        · rw [dfLook] at hs
          cases hdf : dget? (bucketGet sbm k).2 pid with
          | none => rw [hdf] at hs; cases hs
          | some r =>
            simp only [hdf]
            cases dget? (bucketGet sbm k).1 pid <;> exact dinsert_ne_nil _ _ _
      · exact ih _ (Or.inl ⟨k, hk2, hsome⟩)
    · refine ih _ (Or.inr ?_)
      exact attach_step_ne_nil sbm pid acc a hacc

/-- For a valid prompt id, attachSteered is non-empty: some steered
jailbreak record carries that id, its bucket key is listed, and its
jailbreak leaf is present. -/
theorem attachSteered_ne_nil (sj sd : List VEntry) (pid : Int)
    (hsj : ∃ e ∈ sj, e.id = pid) :
    attachSteered (sbmOf sj sd) pid ≠ [] := by
  obtain ⟨e, he, hid⟩ := hsj
  rw [attachSteered]
  refine attach_fold_ne_nil _ _ _ _ (Or.inl ⟨magKeyI e, ?_, Or.inl ?_⟩)
  · rw [show sortDescInt (dkeys (sbmOf sj sd)) =
      List.insertionSort (fun a b => b ≤ a) (dkeys (sbmOf sj sd)) from rfl,
      List.mem_insertionSort]
    exact magKey_mem_dkeys_sbmOf sj sd e he
  · rw [jbLook_sbmOf]
    have hfind : (sj.reverse.find? (matchesJB (magKeyI e) pid)).isSome := by
      rw [List.find?_isSome]
      refine ⟨e, List.mem_reverse.mpr he, ?_⟩
      rw [matchesJB]
      simp [hid]
    cases hf : sj.reverse.find? (matchesJB (magKeyI e) pid) with
    | none => rw [hf] at hfind; cases hfind
    | some x => simp

/-- The safety-check removal of lines 169-177 removes nothing: every
surviving key is valid, hence has steered jailbreak data. -/
theorem prompts4_eq_prompts3 (uj ud sj sd : List VEntry) :
    prompts4 uj ud sj sd = prompts3 uj ud sj sd := by
  rw [prompts4, List.filter_eq_self]
  intro q hq
  have hkey : q.1 ∈ dkeys (prompts3 uj ud sj sd) := List.mem_map_of_mem _ hq
  rw [dkeys_prompts3, dkeys_prompts2, mem_dkeys_prompts1] at hkey
  have hsj : ∃ e ∈ sj, e.id = q.1 := by
    have h2 := (Bool.and_eq_true _ _).mp hkey |>.2
    obtain ⟨e, he, hp⟩ := List.any_eq_true.mp h2
    exact ⟨e, he, of_decide_eq_true hp⟩
  have hst := prompts3_steered uj ud sj sd q hq
  have hne := attachSteered_ne_nil sj sd q.1 hsj
  rw [← hst] at hne
  simp only [Bool.not_eq_true']
  rw [List.isEmpty_eq_false]
  exact hne

theorem mem_dkeys_iff_exists {κ β : Type} (m : DMap κ β) (k : κ) :
    k ∈ dkeys m ↔ ∃ v, (k, v) ∈ m := by
  simp only [dkeys, List.mem_map]
  constructor
  · rintro ⟨p, hp, rfl⟩
    exact ⟨p.2, hp⟩
  · rintro ⟨v, hv⟩
    exact ⟨(k, v), hv, rfl⟩

theorem valid_test_iff (uj sj : List VEntry) (pid : Int) :
    valid_test uj sj pid = true ↔
      (∃ e ∈ uj, e.id = pid) ∧ (∃ e ∈ sj, e.id = pid) := by
  rw [valid_test, Bool.and_eq_true, List.any_eq_true, List.any_eq_true]
  simp only [decide_eq_true_eq]

theorem mem_dkeys_prompts4 (uj ud sj sd : List VEntry) (pid : Int) :
    pid ∈ dkeys (prompts4 uj ud sj sd) ↔
      (∃ e ∈ uj, e.id = pid) ∧ (∃ e ∈ sj, e.id = pid) := by
  rw [prompts4_eq_prompts3, dkeys_prompts3, dkeys_prompts2, mem_dkeys_prompts1,
    valid_test_iff]

theorem enum_mem_of_getElem? {α : Type} (l : List α) (i : Nat) (x : α)
    (h : l[i]? = some x) : (i, x) ∈ l.enum := by
  obtain ⟨hi, hx⟩ := List.getElem?_eq_some.mp h
  have hi2 : i < l.enum.length := by rw [List.enum_length]; exact hi
  have := List.getElem_mem hi2
  rw [List.getElem_enum, hx] at this
  exact this

/-- C2: in the viewer pipeline the set of prompt ids present in the final
output (index prompt_ids and chunk documents) equals the intersection of
the ids appearing in the unsteered-jailbreak file and the ids appearing in
the steered-jailbreak file; no id absent from either side appears. -/
theorem viewer_output_ids_eq_intersection (model : String)
    (uj ud sj sd : List VEntry) (chunk_size : Nat) (hcs : 0 < chunk_size)
    (pid : Int) :
    (pid ∈ (process_model_data model uj ud sj sd chunk_size).index.prompt_ids ↔
      (∃ e ∈ uj, e.id = pid) ∧ (∃ e ∈ sj, e.id = pid)) ∧
    ((∃ ch ∈ (process_model_data model uj ud sj sd chunk_size).chunks,
        ∃ it ∈ ch, it.id = pid) ↔
      (∃ e ∈ uj, e.id = pid) ∧ (∃ e ∈ sj, e.id = pid)) := by
  constructor
  · show pid ∈ viewer_prompt_ids uj ud sj sd ↔ _
    rw [viewer_prompt_ids, sortAscInt, List.mem_insertionSort]
    rw [show (prompts4 uj ud sj sd).map (fun p => p.1) =
      dkeys (prompts4 uj ud sj sd) from rfl]
    exact mem_dkeys_prompts4 uj ud sj sd pid
  · show (∃ ch ∈ viewer_chunks uj ud sj sd chunk_size, ∃ it ∈ ch, it.id = pid) ↔ _
    rw [← mem_dkeys_prompts4 uj ud sj sd pid]
    constructor
    · rintro ⟨ch, hch, it, hit, hid⟩
      rw [viewer_chunks, List.mem_map] at hch
      obtain ⟨ch0, hch0, rfl⟩ := hch
      rw [List.mem_map] at hit
      obtain ⟨pr, hpr, rfl⟩ := hit
      have hmem : pr ∈ prompts4 uj ud sj sd := by
        rw [← flatten_chunk_data (prompts4 uj ud sj sd) chunk_size hcs]
        exact List.mem_flatten.mpr ⟨ch0, hch0, hpr⟩
      have hidinv := prompts4_id_inv uj ud sj sd pr hmem
      rw [mem_dkeys_iff_exists]
      have hfst : pr.1 = pid := by rw [← hidinv]; exact hid
      exact ⟨pr.2, by rw [← hfst]; exact hmem⟩
    · intro hk
      rw [mem_dkeys_iff_exists] at hk
      obtain ⟨p, hp⟩ := hk
      have hfl : (pid, p) ∈ (viewer_slices uj ud sj sd chunk_size).flatten := by
        rw [viewer_slices, flatten_chunk_data _ _ hcs]
        exact hp
      obtain ⟨ch0, hch0, hpr⟩ := List.mem_flatten.mp hfl
      refine ⟨ch0.map (fun p => p.2), List.mem_map_of_mem _ hch0, p,
        List.mem_map_of_mem _ hpr, ?_⟩
      exact prompts4_id_inv uj ud sj sd (pid, p) hp

/-- C1: every prompt id recorded in the produced index resolves through
prompt_to_chunk_map to a (chunk index, offset) pair whose chunk document
holds at that offset an item whose id field is that id. -/
theorem viewer_index_roundtrip (model : String) (uj ud sj sd : List VEntry)
    (chunk_size : Nat) (hcs : 0 < chunk_size) (pid : Int)
    (hpid : pid ∈ (process_model_data model uj ud sj sd chunk_size).index.prompt_ids) :
    ∃ ci pi ch it,
      dget? (process_model_data model uj ud sj sd chunk_size).index.prompt_to_chunk_map
        pid = some (ci, pi) ∧
      (process_model_data model uj ud sj sd chunk_size).chunks[ci]? = some ch ∧
      ch[pi]? = some it ∧ it.id = pid := by
  have hpid2 : pid ∈ dkeys (prompts4 uj ud sj sd) := by
    rw [show (process_model_data model uj ud sj sd chunk_size).index.prompt_ids =
      viewer_prompt_ids uj ud sj sd from rfl, viewer_prompt_ids, sortAscInt,
      List.mem_insertionSort] at hpid
    exact hpid
  obtain ⟨p, hp⟩ := (mem_dkeys_iff_exists _ _).mp hpid2
  have hfl : (pid, p) ∈ (viewer_slices uj ud sj sd chunk_size).flatten := by
    rw [viewer_slices, flatten_chunk_data _ _ hcs]
    exact hp
  obtain ⟨ch0, hch0, hpr0⟩ := List.mem_flatten.mp hfl
  obtain ⟨ci0, hci0⟩ := List.mem_iff_getElem?.mp hch0
  obtain ⟨pi0, hpi0⟩ := List.mem_iff_getElem?.mp hpr0
  have hmemBIG : (pid, (ci0, pi0)) ∈
      (viewer_slices uj ud sj sd chunk_size).enum.flatMap
        (fun ci_ch =>
          ci_ch.2.enum.map (fun pi_pr => (pi_pr.2.1, (ci_ch.1, pi_pr.1)))) := by
    rw [List.mem_flatMap]
    refine ⟨(ci0, ch0), enum_mem_of_getElem? _ _ _ hci0, ?_⟩
    rw [List.mem_map]
    exact ⟨(pi0, (pid, p)), enum_mem_of_getElem? _ _ _ hpi0, rfl⟩
  have hsome : (dget? (viewer_p2c uj ud sj sd chunk_size) pid).isSome := by
    rw [viewer_p2c_eq_flat]
    exact dget?_foldl_dinsertPair_isSome_of_mem _ _ _ _ hmemBIG
  obtain ⟨v, hv⟩ := Option.isSome_iff_exists.mp hsome
  obtain ⟨ci, pi⟩ := v
  have hv2 := hv
  rw [viewer_p2c_eq_flat] at hv2
  rcases dget?_foldl_dinsertPair_eq_some _ _ _ _ hv2 with hmem2 | hnone
  · rw [List.mem_flatMap] at hmem2
    obtain ⟨cich, hch1, hmm⟩ := hmem2
    obtain ⟨ci1, ch1⟩ := cich
    rw [List.mem_map] at hmm
    obtain ⟨pipr, hpr1, heq⟩ := hmm
    obtain ⟨pi1, pr1⟩ := pipr
    have heq2 : pr1.1 = pid ∧ ci1 = ci ∧ pi1 = pi := by
      simpa [Prod.ext_iff] using heq
    obtain ⟨hprid, hci, hpi⟩ := heq2
    obtain ⟨hlt1, hch1e⟩ := List.mem_enum hch1
    obtain ⟨hlt2, hpr1e⟩ := List.mem_enum hpr1
    refine ⟨ci, pi, ch1.map (fun p => p.2), pr1.2, hv, ?_, ?_, ?_⟩
    · show (viewer_chunks uj ud sj sd chunk_size)[ci]? = _
      rw [viewer_chunks, List.getElem?_map, ← hci,
        List.getElem?_eq_getElem hlt1, ← hch1e]
      rfl
    · rw [List.getElem?_map, ← hpi, List.getElem?_eq_getElem hlt2, ← hpr1e]
      rfl
    · have hmm2 : pr1 ∈ prompts4 uj ud sj sd := by
        rw [← flatten_chunk_data (prompts4 uj ud sj sd) chunk_size hcs]
        refine List.mem_flatten.mpr ⟨ch1, ?_, ?_⟩
        · rw [hch1e]
          exact List.getElem_mem hlt1
        · rw [hpr1e]
          exact List.getElem_mem hlt2
      rw [prompts4_id_inv uj ud sj sd pr1 hmm2]
      exact hprid
  · exact absurd hnone (by simp [dget?])

/-- C1 witness: the index round-trip instantiated on the concrete qwen
scenario at prompt id 7. -/
theorem viewer_index_roundtrip_witness :
    ∃ ci pi ch it,
      dget? (process_model_data "qwen-3-32b" cUJ cUD cSJ cSD 25).index.prompt_to_chunk_map
        7 = some (ci, pi) ∧
      (process_model_data "qwen-3-32b" cUJ cUD cSJ cSD 25).chunks[ci]? = some ch ∧
      ch[pi]? = some it ∧ it.id = 7 :=
  viewer_index_roundtrip "qwen-3-32b" cUJ cUD cSJ cSD 25 (by decide) 7 (by decide)

/-- C2 witness: the round-trip id-set equality instantiated on the concrete
scenario. -/
theorem viewer_output_ids_eq_intersection_witness :
    ((7 : Int) ∈ (process_model_data "qwen-3-32b" cUJ cUD cSJ cSD 25).index.prompt_ids ↔
      (∃ e ∈ cUJ, e.id = 7) ∧ (∃ e ∈ cSJ, e.id = 7)) ∧
    ((∃ ch ∈ (process_model_data "qwen-3-32b" cUJ cUD cSJ cSD 25).chunks,
        ∃ it ∈ ch, it.id = 7) ↔
      (∃ e ∈ cUJ, e.id = 7) ∧ (∃ e ∈ cSJ, e.id = 7)) :=
  viewer_output_ids_eq_intersection "qwen-3-32b" cUJ cUD cSJ cSD 25 (by decide) 7

/-- C3: for every item sequence and chunk size n > 0, concatenating the
chunks in manifest order reproduces the sequence exactly; every chunk except
possibly the last has length exactly n; a non-empty sequence has a last
chunk of length in (0, n]. -/
theorem chunking_partition {α : Type} (items : List α) (n : Nat) (hn : 0 < n) :
    (chunk_data items n).flatten = items ∧
    (∀ c ∈ (chunk_data items n).dropLast, c.length = n) ∧
    (items ≠ [] →
      ∃ c, (chunk_data items n).getLast? = some c ∧ 0 < c.length ∧ c.length ≤ n) :=
  ⟨flatten_chunk_data items n hn, length_mem_dropLast_chunk_data items n hn,
    fun hne => getLast?_chunk_data items n hn hne⟩

/-- C3 witness: the chunking partition instantiated on a concrete sequence. -/
theorem chunking_partition_witness :
    (chunk_data ([1, 2, 3] : List Nat) 2).flatten = [1, 2, 3] ∧
    (∀ c ∈ (chunk_data ([1, 2, 3] : List Nat) 2).dropLast, c.length = 2) ∧
    (([1, 2, 3] : List Nat) ≠ [] →
      ∃ c, (chunk_data ([1, 2, 3] : List Nat) 2).getLast? = some c ∧
        0 < c.length ∧ c.length ≤ 2) :=
  chunking_partition [1, 2, 3] 2 (by decide)

/-- C4 (amended): the two pipelines use opposite sort directions.  In the
viewer pipeline a llama model name gives a non-decreasing magnitudes list
and any other name a non-increasing one; in the susceptibility pipeline a
llama name gives a non-increasing list and any other name a non-decreasing
one. -/
theorem magnitudes_sort_direction :
    (∀ (model : String) (uj ud sj sd : List VEntry) (cs : Nat),
      (containsLlama model = true →
        List.Sorted (fun a b : ℚ => a ≤ b)
          (process_model_data model uj ud sj sd cs).index.magnitudes) ∧
      (containsLlama model = false →
        List.Sorted (fun a b : ℚ => b ≤ a)
          (process_model_data model uj ud sj sd cs).index.magnitudes)) ∧
    (∀ (model : String) (dataS dataD : List SEntry),
      (containsLlama model = true →
        List.Sorted (fun a b : ℚ => b ≤ a) (suscMagnitudes model dataS dataD)) ∧
      (containsLlama model = false →
        List.Sorted (fun a b : ℚ => a ≤ b) (suscMagnitudes model dataS dataD))) := by
  constructor
  · intro model uj ud sj sd cs
    constructor
    · intro h
      show List.Sorted _ (viewer_magnitudes model uj ud sj sd)
      rw [viewer_magnitudes]
      simp only [h, if_true]
      exact List.sorted_insertionSort _ _
    · intro h
      show List.Sorted _ (viewer_magnitudes model uj ud sj sd)
      rw [viewer_magnitudes]
      simp only [h, Bool.false_eq_true, if_false]
      exact List.sorted_insertionSort _ _
  · intro model dataS dataD
    constructor
    · intro h
      rw [suscMagnitudes]
      simp only [h, if_true]
      exact List.sorted_insertionSort _ _
    · intro h
      rw [suscMagnitudes]
      simp only [h, Bool.false_eq_true, if_false]
      exact List.sorted_insertionSort _ _

/-- C4 counterexample: for the llama model name the susceptibility pipeline
produces a magnitudes list that is not non-decreasing, contradicting the
claim that both pipelines sort llama magnitudes in non-decreasing order. -/
theorem magnitudes_sort_counterexample :
    containsLlama "llama-3.3-70b" = true ∧
    suscMagnitudes "llama-3.3-70b" cS4 [] = [2, 1] ∧
    ¬ List.Sorted (fun a b : ℚ => a ≤ b) (suscMagnitudes "llama-3.3-70b" cS4 []) := by
  refine ⟨by decide, by decide, ?_⟩
  intro h
  rw [show suscMagnitudes "llama-3.3-70b" cS4 [] = [2, 1] from by decide] at h
  have := List.rel_of_sorted_cons h 1 (List.mem_singleton.mpr rfl)
  exact absurd this (by norm_num)

/-- C4 witness: the amended sort directions instantiated on concrete runs of
both pipelines under both branches of the model-name test. -/
theorem magnitudes_sort_direction_witness :
    List.Sorted (fun a b : ℚ => a ≤ b)
      (process_model_data "llama-3.3-70b" cUJ cUD cSJ cSD 25).index.magnitudes ∧
    List.Sorted (fun a b : ℚ => b ≤ a)
      (process_model_data "qwen-3-32b" cUJ cUD cSJ cSD 25).index.magnitudes ∧
    List.Sorted (fun a b : ℚ => b ≤ a) (suscMagnitudes "llama-3.3-70b" cS4 []) ∧
    List.Sorted (fun a b : ℚ => a ≤ b) (suscMagnitudes "qwen-3-32b" cS4 []) :=
  ⟨(magnitudes_sort_direction.1 "llama-3.3-70b" cUJ cUD cSJ cSD 25).1 (by decide),
   (magnitudes_sort_direction.1 "qwen-3-32b" cUJ cUD cSJ cSD 25).2 (by decide),
   (magnitudes_sort_direction.2 "llama-3.3-70b" cS4 []).1 (by decide),
   (magnitudes_sort_direction.2 "qwen-3-32b" cS4 []).2 (by decide)⟩

/-- The susceptibility magnitude set never collects 0. -/
theorem zero_notMem_susc_collect (l : List SEntry) :
    ∀ s : List ℚ, (0 : ℚ) ∉ s →
      (0 : ℚ) ∉ l.foldl
        (fun s e =>
          match e.magnitude with
          | some mag => if mag ≠ 0 then sinsert s mag else s
          | none => s)
        s := by
  induction l with
  | nil => intro s h; exact h
  | cons a tl ih =>
    intro s h
    rw [List.foldl_cons]
    refine ih _ ?_
    cases hm : a.magnitude with
    | none => exact h
    | some mag =>
      show (0 : ℚ) ∉ if mag ≠ 0 then sinsert s mag else s
      by_cases hz : mag ≠ 0
      · rw [if_pos hz, mem_sinsert]
        rintro (hc | hc)
        · exact h hc
        · exact hz hc.symm
      · rw [if_neg hz]
        exact h

/-- C5: the viewer pipeline always inserts magnitude 0 before sorting, so
0 is in every produced magnitudes list; the susceptibility pipeline
excludes 0, so 0 is never in its magnitudes list; and on the concrete
qwen-3-32b scenario with steered magnitudes 300 and -300 the viewer index
magnitudes list is exactly [300, 0, -300]. -/
theorem magnitude_zero_inclusion :
    (∀ (model : String) (uj ud sj sd : List VEntry) (cs : Nat),
      (0 : ℚ) ∈ (process_model_data model uj ud sj sd cs).index.magnitudes) ∧
    (∀ (model : String) (dataS dataD : List SEntry),
      (0 : ℚ) ∉ suscMagnitudes model dataS dataD) ∧
    (process_model_data "qwen-3-32b" cUJ cUD cSJ cSD 25).index.magnitudes =
      [300, 0, -300] := by
  refine ⟨?_, ?_, by decide⟩
  · intro model uj ud sj sd cs
    show (0 : ℚ) ∈ viewer_magnitudes model uj ud sj sd
    have hm : (0 : ℚ) ∈ (sinsert (viewer_all_mags uj ud sj sd) 0).map
        (fun z : Int => (z : ℚ)) :=
      List.mem_map.mpr ⟨0, (mem_sinsert _ _ _).mpr (Or.inr rfl), by simp⟩
    rw [viewer_magnitudes]
    by_cases hc : containsLlama model
    · rw [if_pos hc, sortAscQ, List.mem_insertionSort]
      exact hm
    · rw [if_neg (by simp [hc]), sortDescQ, List.mem_insertionSort]
      exact hm
  · intro model dataS dataD h
    rw [suscMagnitudes] at h
    have hnot : (0 : ℚ) ∉ susc_all_mags dataS dataD :=
      zero_notMem_susc_collect (dataS ++ dataD) [] (by simp)
    by_cases hc : containsLlama model
    · rw [if_pos hc, sortDescQ, List.mem_insertionSort] at h
      exact hnot h
    · rw [if_neg (by simp [hc]), sortAscQ, List.mem_insertionSort] at h
      exact hnot h

/-- C7: the field normalizers are total deterministic functions on strings;
in particular each is defined and well-behaved on empty input. -/
theorem normalizers_total_deterministic :
    (∀ s t : String, s = t → normalize_score s = normalize_score t) ∧
    (∀ p1 p2 q1 q2 r1 r2 : String, p1 = p2 → q1 = q2 → r1 = r2 →
      extract_system_prompt p1 q1 r1 = extract_system_prompt p2 q2 r2) ∧
    (∀ s t : String, s = t → truncate_persona s = truncate_persona t) ∧
    normalize_score "" = "" ∧
    (∀ q r : String, extract_system_prompt "" q r = "") ∧
    (∀ p r : String, extract_system_prompt p "" r = p) ∧
    truncate_persona "" = "" := by
  refine ⟨?_, ?_, ?_, by decide, ?_, ?_, by decide⟩
  · intro s t h; rw [h]
  · intro p1 p2 q1 q2 r1 r2 h1 h2 h3; rw [h1, h2, h3]
  · intro s t h; rw [h]
  · intro q r
    rw [extract_system_prompt, if_pos (Or.inl rfl)]
  · intro p r
    rw [extract_system_prompt, if_pos (Or.inr rfl)]

/-- C7 witness: determinism instances at concrete inputs. -/
theorem normalizers_total_deterministic_witness :
    normalize_score "weird_ai" = normalize_score "weird_ai" ∧
    extract_system_prompt "sys. q" "q" "assistant" =
      extract_system_prompt "sys. q" "q" "assistant" ∧
    truncate_persona "a b c" = truncate_persona "a b c" ∧
    extract_system_prompt "" "q" "r" = "" :=
  ⟨normalizers_total_deterministic.1 "weird_ai" "weird_ai" rfl,
   normalizers_total_deterministic.2.1 "sys. q" "sys. q" "q" "q" "assistant" "assistant"
     rfl rfl rfl,
   normalizers_total_deterministic.2.2.1 "a b c" "a b c" rfl,
   normalizers_total_deterministic.2.2.2.2.1 "q" "r"⟩

/-! ### Last-writer-wins characterization of create_response_structure -/

/-- The unsteered slot holds the data of the last zero-magnitude record. -/
theorem crs_unsteered (entries : List SEntry) :
    (create_response_structure entries).unsteered =
      (entries.reverse.find? (fun e => decide (e.magnitude.getD 0 = 0))).map
        sRespData := by
  induction entries using List.reverseRecOn with
  | nil => rfl
  | append_singleton l e ih =>
    rw [create_response_structure, List.foldl_append, List.foldl_cons, List.foldl_nil,
      List.reverse_append, List.reverse_singleton, List.singleton_append]
    show (if e.magnitude.getD 0 = 0 then
        { create_response_structure l with unsteered := some (sRespData e) }
      else
        { create_response_structure l with
            steered := dinsert (create_response_structure l).steered
              (e.magnitude.getD 0) (sRespData e) }).unsteered = _
    by_cases hz : e.magnitude.getD 0 = 0
    · rw [@List.find?_cons_of_pos _ (fun e => decide (e.magnitude.getD 0 = 0)) e
        l.reverse (decide_eq_true hz), if_pos hz]
      rfl
    · rw [@List.find?_cons_of_neg _ (fun e => decide (e.magnitude.getD 0 = 0)) e
        l.reverse (by simpa using hz), if_neg hz]
      exact ih

/-- The steered slot at a non-zero magnitude holds the data of the last
record with that magnitude. -/
theorem crs_steered (entries : List SEntry) (m : ℚ) (hm : m ≠ 0) :
    dget? (create_response_structure entries).steered m =
      (entries.reverse.find? (fun e => decide (e.magnitude.getD 0 = m))).map
        sRespData := by
  induction entries using List.reverseRecOn with
  | nil => rfl
  | append_singleton l e ih =>
    rw [create_response_structure, List.foldl_append, List.foldl_cons, List.foldl_nil,
      List.reverse_append, List.reverse_singleton, List.singleton_append]
    show dget? (if e.magnitude.getD 0 = 0 then
        { create_response_structure l with unsteered := some (sRespData e) }
      else
        { create_response_structure l with
            steered := dinsert (create_response_structure l).steered
              (e.magnitude.getD 0) (sRespData e) }).steered m = _
    by_cases hz : e.magnitude.getD 0 = 0
    · have hne : ¬ (e.magnitude.getD 0 = m) := by rw [hz]; exact fun hc => hm hc.symm
      rw [@List.find?_cons_of_neg _ (fun e => decide (e.magnitude.getD 0 = m)) e
        l.reverse (by simpa using hne), if_pos hz]
      exact ih
    · rw [if_neg hz]
      show dget? (dinsert (create_response_structure l).steered (e.magnitude.getD 0)
        (sRespData e)) m = _
      rw [dget?_dinsert]
      by_cases hem : e.magnitude.getD 0 = m
      · rw [@List.find?_cons_of_pos _ (fun e => decide (e.magnitude.getD 0 = m)) e
          l.reverse (decide_eq_true hem), if_pos hem.symm]
        rfl
      · rw [@List.find?_cons_of_neg _ (fun e => decide (e.magnitude.getD 0 = m)) e
          l.reverse (by simpa using hem), if_neg (fun hc => hem hc.symm)]
        exact ih

/-- C8: when several records occupy the same slot, the record occurring
later in file order determines the stored response and score.  In the
susceptibility pipeline this holds for the unsteered slot and for every
non-zero steered magnitude slot; in the viewer pipeline it holds for the
jailbreak and default leaves of every (magnitude bucket, prompt id) slot. -/
theorem duplicate_slot_last_wins :
    (∀ entries : List SEntry,
      (create_response_structure entries).unsteered =
        (entries.reverse.find? (fun e => decide (e.magnitude.getD 0 = 0))).map
          sRespData) ∧
    (∀ (entries : List SEntry) (m : ℚ), m ≠ 0 →
      dget? (create_response_structure entries).steered m =
        (entries.reverse.find? (fun e => decide (e.magnitude.getD 0 = m))).map
          sRespData) ∧
    (∀ (sj sd : List VEntry) (k pid : Int),
      jbLook (sbmOf sj sd) k pid =
        (sj.reverse.find? (matchesJB k pid)).map respOf) ∧
    (∀ (sj sd : List VEntry) (k pid : Int),
      dfLook (sbmOf sj sd) k pid =
        (sd.reverse.find? (matchesJB k pid)).map respOf) :=
  ⟨crs_unsteered, crs_steered, jbLook_sbmOf, dfLook_sbmOf⟩

/-- C8 witness: the last-writer characterization instantiated on a concrete
duplicate-slot input. -/
theorem duplicate_slot_last_wins_witness :
    (5 : ℚ) ≠ 0 ∧
    dget? (create_response_structure cDup).steered 5 =
      (cDup.reverse.find? (fun e => decide (e.magnitude.getD 0 = 5))).map
        sRespData :=
  ⟨by decide, duplicate_slot_last_wins.2.1 cDup 5 (by decide)⟩

/-- C9 counterexample: two distinct magnitude values receive the same string
key under the viewer coercion str(int(m)), so the coercion is not injective
on arbitrary numeric inputs. -/
theorem mag_key_collision :
    halfQ ≠ quarterQ ∧
    viewer_mag_key halfQ = "0" ∧
    viewer_mag_key quarterQ = "0" ∧
    viewer_mag_key halfQ = viewer_mag_key quarterQ := by
  refine ⟨by decide, by decide, by decide, by decide⟩

/-- C9 (amended): restricted to integer-valued magnitudes the coercion is
stable and round-trippable: distinct magnitudes receive distinct truncated
integers (hence distinct string keys), and converting the truncated integer
back to a number orders the keys exactly as the original magnitudes. -/
theorem mag_key_integer_roundtrip (q1 q2 : ℚ)
    (h1 : q1.den = 1) (h2 : q2.den = 1) :
    (q1 ≠ q2 → ratTrunc q1 ≠ ratTrunc q2) ∧
    (q1 < q2 ↔ ((ratTrunc q1 : ℚ) < (ratTrunc q2 : ℚ))) := by
  have key : ∀ q : ℚ, q.den = 1 → ratTrunc q = q.num := by
    intro q hq
    rw [ratTrunc]
    by_cases h0 : 0 ≤ q
    · rw [if_pos h0, Rat.floor, if_pos hq]
    · rw [if_neg h0, Rat.ceil, if_pos hq]
  have cast_eq : ∀ q : ℚ, q.den = 1 → ((q.num : ℚ) = q) := by
    intro q hq
    have := Rat.num_div_den q
    rw [hq] at this
    simpa using this
  constructor
  · intro hne hc
    rw [key q1 h1, key q2 h2] at hc
    apply hne
    rw [← cast_eq q1 h1, ← cast_eq q2 h2, hc]
  · rw [key q1 h1, key q2 h2, cast_eq q1 h1, cast_eq q2 h2]

/-- C9 witness: the integer-valued round-trip at concrete magnitudes. -/
theorem mag_key_integer_roundtrip_witness :
    (((3 : ℚ) ≠ 7 → ratTrunc 3 ≠ ratTrunc 7) ∧
      ((3 : ℚ) < 7 ↔ ((ratTrunc (3 : ℚ) : ℚ) < (ratTrunc (7 : ℚ) : ℚ)))) :=
  mag_key_integer_roundtrip 3 7 (by decide) (by decide)

/-- Any folded record with a present non-zero magnitude lands that magnitude
in the collected set, and the collection grows monotonically. -/
theorem mem_susc_collect (L : List SEntry) :
    ∀ (s : List ℚ) (x : ℚ),
      (x ∈ s ∨ ∃ e ∈ L, e.magnitude = some x ∧ x ≠ 0) →
      x ∈ L.foldl
        (fun s e =>
          match e.magnitude with
          | some mag => if mag ≠ 0 then sinsert s mag else s
          | none => s)
        s := by
  induction L with
  | nil =>
    intro s x h
    rcases h with h | ⟨e, he, _⟩
    · exact h
    · cases he
  | cons a tl ih =>
    intro s x h
    rw [List.foldl_cons]
    rcases h with h | ⟨e, he, hm, hx⟩
    · refine ih _ _ (Or.inl ?_)
      cases hma : a.magnitude with
      | none => exact h
      | some mag =>
        show x ∈ if mag ≠ 0 then sinsert s mag else s
        by_cases hz : mag ≠ 0
        · rw [if_pos hz, mem_sinsert]
          exact Or.inl h
        · rw [if_neg hz]
          exact h
    · rcases List.mem_cons.mp he with rfl | he2
      · refine ih _ _ (Or.inl ?_)
        rw [hm]
        show x ∈ if x ≠ 0 then sinsert s x else s
        rw [if_pos hx, mem_sinsert]
        exact Or.inr rfl
      · exact ih _ _ (Or.inr ⟨e, he2, hm, hx⟩)

/-- C10 counterexample: a record with a missing id is dropped by the
grouping (so it reaches no chunk), yet its novel non-zero magnitude still
appears in the index's magnitudes list, which lines 134-139 collect from
the raw records before grouping — so the record does contribute to the
index, contradicting the claim as stated. -/
theorem dropped_record_reaches_index :
    cNoId.id = none ∧
    group_by_id_and_question [cNoId] = group_by_id_and_question [] ∧
    (5 : ℚ) ∈ suscMagnitudes "qwen-3-32b" [cNoId] [] ∧
    (5 : ℚ) ∉ suscMagnitudes "qwen-3-32b" [] [] :=
  ⟨rfl, by decide, by decide, by decide⟩

/-- C10 (amended): records lacking id or question_id are silently dropped by
the grouping, so they never reach any chunk, and a record lacking sample_id
is grouped under (id, 0); but any record with a present non-zero magnitude —
dropped from the grouping or not — still contributes that magnitude to the
index's magnitudes list, which is collected from the raw records before
grouping. -/
theorem grouping_missing_fields (l : List SEntry) (e : SEntry) :
    (e.id = none ∨ e.question_id = none →
      group_by_id_and_question (l ++ [e]) = group_by_id_and_question l) ∧
    (∀ i q : Int, e.sample_id = none → e.id = some i → e.question_id = some q →
      groupLook (group_by_id_and_question (l ++ [e])) (i, 0) q =
        groupLook (group_by_id_and_question l) (i, 0) q ++ [e]) ∧
    (∀ (model : String) (dataD : List SEntry) (m : ℚ),
      e.magnitude = some m → m ≠ 0 →
      m ∈ suscMagnitudes model (l ++ [e]) dataD) := by
  have hstep : group_by_id_and_question (l ++ [e]) =
      (match e.id, e.question_id with
        | some i, some q =>
          dinsert (group_by_id_and_question l) (i, e.sample_id.getD 0)
            (dinsert
              ((dget? (group_by_id_and_question l) (i, e.sample_id.getD 0)).getD [])
              q
              (((dget?
                  ((dget? (group_by_id_and_question l)
                    (i, e.sample_id.getD 0)).getD [])
                  q).getD []) ++ [e]))
        | _, _ => group_by_id_and_question l) := by
    rw [group_by_id_and_question, List.foldl_append, List.foldl_cons, List.foldl_nil]
    rfl
  refine ⟨?_, ?_, ?_⟩
  · rintro (h | h)
    · rw [hstep, h]
    · rw [hstep, h]
      cases e.id <;> rfl
  · intro i q hs hid hq
    rw [hstep, hid, hq, hs]
    show groupLook
      (dinsert (group_by_id_and_question l) (i, 0)
        (dinsert ((dget? (group_by_id_and_question l) (i, 0)).getD []) q
          (((dget? ((dget? (group_by_id_and_question l) (i, 0)).getD []) q).getD [])
            ++ [e]))) (i, 0) q = _
    rw [groupLook, dget?_dinsert, if_pos rfl, Option.getD_some, dget?_dinsert,
      if_pos rfl, Option.getD_some, groupLook]
  · intro model dataD m hm hz
    have hmem : m ∈ susc_all_mags (l ++ [e]) dataD := by
      rw [susc_all_mags]
      refine mem_susc_collect _ _ _ (Or.inr ⟨e, ?_, hm, hz⟩)
      exact List.mem_append.mpr
        (Or.inl (List.mem_append.mpr (Or.inr (List.mem_singleton.mpr rfl))))
    rw [suscMagnitudes]
    by_cases hc : containsLlama model
    · rw [if_pos hc, sortDescQ, List.mem_insertionSort]
      exact hmem
    · rw [if_neg (by simp [hc]), sortAscQ, List.mem_insertionSort]
      exact hmem

/-- C10 witness: the grouping and index-contribution behaviour instantiated
on concrete records. -/
theorem grouping_missing_fields_witness :
    group_by_id_and_question ([] ++ [cNoId]) = group_by_id_and_question [] ∧
    groupLook (group_by_id_and_question ([] ++ [cMissSample])) (1, 0) 2 =
      groupLook (group_by_id_and_question []) (1, 0) 2 ++ [cMissSample] ∧
    (5 : ℚ) ∈ suscMagnitudes "qwen-3-32b" ([] ++ [cNoId]) [] :=
  ⟨(grouping_missing_fields [] cNoId).1 (Or.inl rfl),
   (grouping_missing_fields [] cMissSample).2.1 1 2 rfl rfl rfl,
   (grouping_missing_fields [] cNoId).2.2 "qwen-3-32b" [] 5 rfl (by decide)⟩

/-- C6 counterexample: in the viewer pipeline a malformed line is not caught
anywhere, so the batch crashes and the following model is never processed,
contradicting the claim that in both pipelines the failure is caught and the
batch continues. -/
theorem parse_error_crashes_viewer_batch :
    viewer_process_raw 25 vmBad = none ∧
    (viewer_batch 25 [vmBad, vmGood]).2 = true ∧
    (viewer_batch 25 [vmBad, vmGood]).1 = [] :=
  ⟨rfl, rfl, rfl⟩

/-- C6 (amended): in the susceptibility pipeline a parse failure is caught
at the file-read boundary (the loader returns the records parsed before the
malformed line) and every model of the batch is processed; in the viewer
pipeline the loader propagates the failure and the batch stops at the
failing model, processing nothing after it. -/
theorem parse_error_isolation :
    (∀ ms : List SRaw, (susc_batch ms).length = ms.length) ∧
    (∀ (gs : List SEntry) (rest : List (Option SEntry)),
      load_jsonl_susc (gs.map some ++ none :: rest) = gs) ∧
    (∀ (gs : List VEntry) (rest : List (Option VEntry)),
      load_jsonl_viewer (gs.map some ++ none :: rest) = none) ∧
    (∀ (cs : Nat) (m : VRaw) (rest : List VRaw),
      viewer_process_raw cs m = none →
      viewer_batch cs (m :: rest) = ([], true)) := by
  refine ⟨?_, ?_, ?_, ?_⟩
  · intro ms
    rw [susc_batch, List.length_map]
  · intro gs rest
    induction gs with
    | nil => rfl
    | cons a tl ih =>
      rw [List.map_cons, List.cons_append]
      show a :: load_jsonl_susc (tl.map some ++ none :: rest) = a :: tl
      rw [ih]
  · intro gs rest
    induction gs with
    | nil => rfl
    | cons a tl ih =>
      rw [List.map_cons, List.cons_append]
      show (load_jsonl_viewer (tl.map some ++ none :: rest)).map (fun d => a :: d) = none
      rw [ih]
      rfl
  · intro cs m rest h
    rw [viewer_batch, h]

/-- C6 witness: the amended propagation behaviour instantiated on a concrete
crashing model. -/
theorem parse_error_isolation_witness :
    viewer_batch 25 (vmBad :: [vmGood]) = ([], true) :=
  parse_error_isolation.2.2.2 25 vmBad [vmGood] rfl
